import Mathlib

/-!
Verification of the signed-decimal64 crate: a signed fixed-scale decimal
`SignedDecimalU64<S>` built as a sign bit plus a `DecimalU64<S>` magnitude.

Embedding conventions:
- `u64` values are `Nat` with explicit `≤ 2 ^ 64 - 1` bounds where overflow
  matters; checked u64 primitives return `Option Nat`.
- The Rust type-level scale `S::SCALE` (0..=8 via `U0..U8`) becomes an
  explicit `Nat` parameter of the operations that read it; the magnitude
  `DecimalU64<S>` is represented by its raw `unscaled : Nat` field.
- The external magnitude engine (crate `decimal64`) is not part of this
  repository; its primitives are modelled from the specification's
  interface contract (each such definition is marked in its doc comment).
- Fallible Rust functions returning `Option` / `Result` become
  `Option` / `Except` in Lean.
-/

namespace SignedDec

/-- Largest value of the Rust `u64` type. -/
def U64_MAX : Nat := 2 ^ 64 - 1

/-- Rust `u64::checked_add` on in-range operands. -/
def checkedAddU64 (a b : Nat) : Option Nat :=
  if a + b ≤ U64_MAX then some (a + b) else none

/-- Rust `u64::checked_sub` on in-range operands. -/
def checkedSubU64 (a b : Nat) : Option Nat :=
  if b ≤ a then some (a - b) else none

/-- Rust `u64::checked_mul` on in-range operands. -/
def checkedMulU64 (a b : Nat) : Option Nat :=
  if a * b ≤ U64_MAX then some (a * b) else none

/-- Source `pow10_u64` (src/lib.rs): a literal lookup table for `10^n`,
`0 ≤ n ≤ 19`; the source aborts for larger exponents (that arm is
unreachable from the crate, whose scales are 0..=8), modelled as `0`. -/
def pow10_u64 : Nat → Nat
  | 0 => 1
  | 1 => 10
  | 2 => 100
  | 3 => 1000
  | 4 => 10000
  | 5 => 100000
  | 6 => 1000000
  | 7 => 10000000
  | 8 => 100000000
  | 9 => 1000000000
  | 10 => 10000000000
  | 11 => 100000000000
  | 12 => 1000000000000
  | 13 => 10000000000000
  | 14 => 100000000000000
  | 15 => 1000000000000000
  | 16 => 10000000000000000
  | 17 => 100000000000000000
  | 18 => 1000000000000000000
  | 19 => 10000000000000000000
  | _ => 0

/-- Errors of the fallible arithmetic APIs (src/error.rs `MathError`). -/
inductive MathError where
  | DivisionByZero
  | Overflow
deriving DecidableEq, Repr

/-- Errors of `FromStr` (src/error.rs `ParseSignedDecimalError`). -/
inductive ParseSignedDecimalError where
  | Empty
  | InvalidMagnitude
deriving DecidableEq, Repr

/-- Rounding modes (src/round.rs `RoundingMode`). -/
inductive RoundingMode where
  | TowardZero
  | AwayFromZero
  | Ceil
  | Floor
  | HalfUp
  | HalfDown
  | HalfEven
deriving DecidableEq, Repr

/-- The signed decimal value (src/lib.rs `SignedDecimalU64<S>`): a sign bit
plus the magnitude's raw unscaled integer. The type-level scale `S` is
carried separately, as an argument of the scale-dependent operations. -/
structure SignedDecimalU64 where
  negative : Bool
  unscaled : Nat
deriving DecidableEq, Repr

namespace SignedDecimalU64

/-- Constructor `new` (src/lib.rs): normalizes `-0` to `0`. -/
def new (negative : Bool) (unscaled : Nat) : SignedDecimalU64 :=
  { negative := negative && decide (unscaled ≠ 0), unscaled := unscaled }

/-- Invariant I1 (no negative zero): the stored sign bit is set only for a
nonzero magnitude. -/
def I1 (x : SignedDecimalU64) : Prop := x.negative = true → x.unscaled ≠ 0

instance (x : SignedDecimalU64) : Decidable x.I1 := by
  unfold I1; infer_instance

/-- Method `is_negative` (src/lib.rs). -/
def is_negative (x : SignedDecimalU64) : Bool :=
  x.negative && decide (x.unscaled ≠ 0)

/-- Method `is_zero` (src/lib.rs). -/
def is_zero (x : SignedDecimalU64) : Bool := decide (x.unscaled = 0)

/-- Method `is_positive` (src/lib.rs). -/
def is_positive (x : SignedDecimalU64) : Bool := !x.is_negative && !x.is_zero

/-- Method `signum` (src/lib.rs), as an integer in {-1, 0, 1}. -/
def signum (x : SignedDecimalU64) : Int :=
  if x.is_negative then -1 else if x.is_zero then 0 else 1

/-- Method `negated` (src/lib.rs): flips the sign unless the magnitude is
zero. -/
def negated (x : SignedDecimalU64) : SignedDecimalU64 :=
  if x.unscaled = 0 then x
  else { negative := !x.negative, unscaled := x.unscaled }

/-- Method `abs` (src/lib.rs): clears the sign unconditionally. -/
def abs (x : SignedDecimalU64) : SignedDecimalU64 :=
  { negative := false, unscaled := x.unscaled }

/-- Constant `ZERO` (src/lib.rs). -/
def ZERO : SignedDecimalU64 := { negative := false, unscaled := 0 }

/-- Constant `ONE` (src/lib.rs): magnitude `DecimalU64::<S>::ONE`, whose
unscaled integer is `10^S` by the magnitude engine contract. -/
def ONE (S : Nat) : SignedDecimalU64 :=
  { negative := false, unscaled := pow10_u64 S }

/-- Method `into_unscaled_i128` (src/lib.rs): the signed unscaled integer. -/
def into_unscaled_i128 (x : SignedDecimalU64) : Int :=
  if x.negative = true ∧ x.unscaled ≠ 0 then -(x.unscaled : Int)
  else (x.unscaled : Int)

/-- `PartialEq::eq` (src/lib.rs): compares normalized signs and unscaled
magnitudes. -/
def beq (a b : SignedDecimalU64) : Bool :=
  (a.is_negative == b.is_negative) && (a.unscaled == b.unscaled)

/-- `Ord::cmp` (src/lib.rs): negatives < zero < positives; among negatives,
larger magnitude means smaller value. -/
def cmp (a b : SignedDecimalU64) : Ordering :=
  match a.is_negative, decide (a.unscaled = 0), b.is_negative, decide (b.unscaled = 0) with
  | _, true, _, true => .eq
  | true, _, false, _ => .lt
  | false, _, true, _ => .gt
  | false, _, false, _ => compare a.unscaled b.unscaled
  | true, _, true, _ => compare b.unscaled a.unscaled

/-- `PartialOrd::le`, derived from `cmp` as in Rust's blanket impl
(`a <= b` iff `cmp(a, b)` is `Less` or `Equal`, i.e. not `Greater`). -/
def le (a b : SignedDecimalU64) : Bool :=
  !(decide (cmp a b = Ordering.gt))

/-- Source `checked_add` (src/arithmetic.rs): sign-magnitude addition over
the magnitude engine's checked add/sub, which act on the unscaled u64. -/
def checked_add (a b : SignedDecimalU64) : Option SignedDecimalU64 :=
  let a_neg := a.is_negative
  let b_neg := b.is_negative
  match a_neg, b_neg with
  | false, false => (checkedAddU64 a.unscaled b.unscaled).map (new false)
  | true, true => (checkedAddU64 a.unscaled b.unscaled).map (new true)
  | _, _ =>
    if b.unscaled ≤ a.unscaled then
      (checkedSubU64 a.unscaled b.unscaled).map (new a_neg)
    else
      (checkedSubU64 b.unscaled a.unscaled).map (new b_neg)

/-- Source `checked_sub` (src/arithmetic.rs): `checked_add(self, -rhs)`. -/
def checked_sub (a b : SignedDecimalU64) : Option SignedDecimalU64 :=
  checked_add a b.negated

/-- Modelled from the spec: the magnitude engine's `DecimalU64::checked_mul`
(external crate `decimal64`), a checked fixed-point multiply at scale `S`
on the unscaled integers. -/
def magCheckedMul (S : Nat) (a b : Nat) : Option Nat :=
  let p := a * b / pow10_u64 S
  if p ≤ U64_MAX then some p else none

/-- Modelled from the spec: the magnitude engine's `DecimalU64::checked_div`
(external crate `decimal64`), the checked fixed-point divide at scale `S`
on the unscaled integers; the quotient is computed at the shared scale. -/
def magCheckedDiv (S : Nat) (a b : Nat) : Option Nat :=
  if b = 0 then none
  else
    let q := a * pow10_u64 S / b
    if q ≤ U64_MAX then some q else none

/-- Source `checked_mul` (src/arithmetic.rs). -/
def checked_mul (S : Nat) (a b : SignedDecimalU64) : Option SignedDecimalU64 :=
  if a.unscaled = 0 ∨ b.unscaled = 0 then some ZERO
  else
    let neg := a.is_negative != b.is_negative
    (magCheckedMul S a.unscaled b.unscaled).map (new neg)

/-- Source `checked_div` (src/arithmetic.rs). -/
def checked_div (S : Nat) (a b : SignedDecimalU64) : Option SignedDecimalU64 :=
  if b.unscaled = 0 then none
  else if a.unscaled = 0 then some ZERO
  else
    let neg := a.is_negative != b.is_negative
    (magCheckedDiv S a.unscaled b.unscaled).map (new neg)

end SignedDecimalU64

/-- Source `should_increment` (src/round.rs): decides whether to increment
the kept digits. `r << 1` is the wrapping u64 shift of the source. -/
def should_increment (q r unit : Nat) (is_neg : Bool) (mode : RoundingMode) : Bool :=
  if r = 0 then false
  else
    match mode with
    | .TowardZero => false
    | .AwayFromZero => true
    | .Ceil => !is_neg
    | .Floor => is_neg
    | .HalfUp => decide (unit ≤ (r <<< 1) % 2 ^ 64)
    | .HalfDown => decide (unit < (r <<< 1) % 2 ^ 64)
    | .HalfEven =>
      let twice := (r <<< 1) % 2 ^ 64
      if unit < twice then true
      else if twice < unit then false
      else decide (q &&& 1 = 1)

namespace SignedDecimalU64

/-- Source `checked_round_dp` (src/round.rs): round to `dp` fractional
digits keeping the same scale `S`; `None` on overflow. -/
def checked_round_dp (S : Nat) (x : SignedDecimalU64) (dp : Nat)
    (mode : RoundingMode) : Option SignedDecimalU64 :=
  let dp := min dp S
  let drop := S - dp
  if drop = 0 then some x
  else
    let unit := pow10_u64 drop
    let u := x.unscaled
    let q := u / unit
    let r := u % unit
    if r = 0 then some (new x.is_negative (q * unit))
    else
      let inc : Nat := if should_increment q r unit x.is_negative mode then 1 else 0
      (checkedAddU64 q inc).bind fun q2 =>
        (checkedMulU64 q2 unit).map fun nu => new x.is_negative nu

/-- Source `checked_to_scale` (src/round.rs): fallible conversion from
scale `S` to scale `T`, rounding with `mode` when narrowing. -/
def checked_to_scale (S T : Nat) (x : SignedDecimalU64)
    (mode : RoundingMode) : Option SignedDecimalU64 :=
  if S = T then some (new x.is_negative x.unscaled)
  else
    let mag := x.unscaled
    if T < S then
      let drop := S - T
      let unit := pow10_u64 drop
      let q := mag / unit
      let r := mag % unit
      if r = 0 then some (new x.is_negative q)
      else
        let inc : Nat := if should_increment q r unit x.is_negative mode then 1 else 0
        (checkedAddU64 q inc).map fun q2 => new x.is_negative q2
    else
      let mul := pow10_u64 (T - S)
      (checkedMulU64 mag mul).map fun nu => new x.is_negative nu

end SignedDecimalU64

/-- Source `TryFrom<i128>` (src/lib.rs): decompose sign and absolute value;
`checked_abs` fails only at `i128::MIN`, and magnitudes above `u64::MAX`
are rejected with Overflow. -/
def tryFromI128 (v : Int) : Except MathError SignedDecimalU64 :=
  let neg := decide (v < 0)
  if v = -(2 ^ 127) then .error .Overflow
  else
    let abs := v.natAbs
    if U64_MAX < abs then .error .Overflow
    else .ok (SignedDecimalU64.new neg abs)

/-- Source `TryFrom<i64>` (src/lib.rs): widen to i128 and delegate. -/
def tryFromI64 (v : Int) : Except MathError SignedDecimalU64 :=
  tryFromI128 v

/-- List-of-characters trim, modelling Rust's `str::trim`. -/
def trimChars (s : List Char) : List Char :=
  ((s.dropWhile Char.isWhitespace).reverse.dropWhile Char.isWhitespace).reverse

/-- Source `FromStr` (src/error.rs), with the external magnitude parser
abstracted as `magParse`: trim, accept an optional leading sign, then
delegate the remainder to the magnitude parser. -/
def fromStrWith (magParse : List Char → Option Nat) (s : List Char) :
    Except ParseSignedDecimalError SignedDecimalU64 :=
  match trimChars s with
  | [] => .error .Empty
  | c :: rest =>
    let p : Bool × List Char :=
      if c = '+' then (false, rest)
      else if c = '-' then (true, rest)
      else (false, c :: rest)
    if p.2 = [] then .error .Empty
    else
      match magParse p.2 with
      | none => .error .InvalidMagnitude
      | some m => .ok (SignedDecimalU64.new p.1 m)

/-- Source `Display` (src/lib.rs), with the external magnitude renderer
abstracted as `magDisplay`: a leading `'-'` exactly when `is_negative()`. -/
def displayWith (magDisplay : Nat → List Char) (x : SignedDecimalU64) :
    List Char :=
  if x.is_negative then '-' :: magDisplay x.unscaled
  else magDisplay x.unscaled

/-- Increment table as the specification states it (§4.3), written from the
spec's words to be compared against the source's `should_increment`:
TowardZero never, AwayFromZero always, Ceil iff not negative, Floor iff
negative, HalfUp iff `2r ≥ unit`, HalfDown iff `2r > unit`, HalfEven iff
`2r > unit` or (`2r == unit` and `q` odd). -/
def incrementSpec (mode : RoundingMode) (q r unit : Nat) (neg : Bool) : Bool :=
  match mode with
  | .TowardZero => false
  | .AwayFromZero => true
  | .Ceil => !neg
  | .Floor => neg
  | .HalfUp => decide (unit ≤ 2 * r)
  | .HalfDown => decide (unit < 2 * r)
  | .HalfEven => decide (unit < 2 * r) || (decide (2 * r = unit) && decide (q % 2 = 1))

/-- Decimal digit to its character. -/
def digitToChar (d : Nat) : Char := Char.ofNat (48 + d)

/-- Character to decimal digit, if any. -/
def charToDigit (c : Char) : Option Nat :=
  if 48 ≤ c.toNat ∧ c.toNat ≤ 57 then some (c.toNat - 48) else none

/-- Modelled from the spec: a canonical base-ten renderer standing in for
the magnitude engine's `Display` (most significant digit first, no sign,
no surrounding whitespace). -/
def magDisplayModel (m : Nat) : List Char :=
  if m = 0 then ['0'] else (Nat.digits 10 m).reverse.map digitToChar

/-- Reads a list of digit characters, most significant first. -/
def parseDigits : List Char → Option (List Nat)
  | [] => some []
  | c :: cs =>
    match charToDigit c, parseDigits cs with
    | some d, some ds => some (d :: ds)
    | _, _ => none

/-- Modelled from the spec: a base-ten reader standing in for the magnitude
engine's parser, inverse of `magDisplayModel`. -/
def magParseModel (s : List Char) : Option Nat :=
  (parseDigits s).map (fun ds => Nat.ofDigits 10 ds.reverse)

section Lemmas

open SignedDecimalU64

lemma pow10_u64_eq {n : Nat} (h : n ≤ 19) : pow10_u64 n = 10 ^ n := by
  interval_cases n <;> rfl

lemma new_unscaled (b : Bool) (m : Nat) : (new b m).unscaled = m := rfl

lemma new_i1 (b : Bool) (m : Nat) : (new b m).I1 := by
  intro h
  simp only [new, Bool.and_eq_true, decide_eq_true_eq] at h
  exact h.2

lemma is_negative_new (b : Bool) (m : Nat) :
    (new b m).is_negative = (b && decide (m ≠ 0)) := by
  by_cases hm : m = 0 <;> simp [new, is_negative, hm]

lemma div_succ_le_u64 {u unit : Nat} (hu : u ≤ U64_MAX) (hunit : 10 ≤ unit) :
    u / unit + 1 ≤ U64_MAX := by
  have h1 : u / unit * unit ≤ u := Nat.div_mul_le_self u unit
  have h2 : u / unit * 10 ≤ u / unit * unit :=
    Nat.mul_le_mul_left (u / unit) hunit
  have h3 : u / unit * 10 ≤ u := le_trans h2 h1
  unfold U64_MAX at *
  omega

lemma shl1_mod {r : Nat} (h : 2 * r < 2 ^ 64) : (r <<< 1) % 2 ^ 64 = 2 * r := by
  have he : r <<< 1 = 2 * r := by rw [Nat.shiftLeft_eq]; ring
  rw [he, Nat.mod_eq_of_lt h]

lemma should_increment_eq {q r unit : Nat} {neg : Bool} (mode : RoundingMode)
    (hr : r ≠ 0) (h2r : 2 * r < 2 ^ 64) :
    should_increment q r unit neg mode = incrementSpec mode q r unit neg := by
  have hsl : (r <<< 1) % 2 ^ 64 = 2 * r := shl1_mod h2r
  have hand : q &&& 1 = q % 2 := Nat.and_one_is_mod q
  unfold should_increment incrementSpec
  rw [if_neg hr]
  cases mode
  · rfl
  · rfl
  · rfl
  · rfl
  · rw [hsl]
  · rw [hsl]
  · simp only [hsl, hand]
    by_cases h1 : unit < 2 * r
    · rw [if_pos h1]
      simp [h1]
    · rw [if_neg h1]
      by_cases h2 : 2 * r < unit
      · rw [if_pos h2]
        have hne : ¬ (2 * r = unit) := by omega
        simp [h1, hne]
      · rw [if_neg h2]
        have he : 2 * r = unit := by omega
        simp [h1, he]

lemma into_eq (x : SignedDecimalU64) :
    x.into_unscaled_i128 =
      if x.is_negative then -(x.unscaled : Int) else (x.unscaled : Int) := by
  unfold into_unscaled_i128 is_negative
  by_cases h1 : x.negative = true <;> by_cases h2 : x.unscaled = 0 <;>
    simp [h1, h2]

lemma le_iff_into (a b : SignedDecimalU64) :
    le a b = true ↔ a.into_unscaled_i128 ≤ b.into_unscaled_i128 := by
  rw [into_eq, into_eq]
  rcases a with ⟨an, au⟩
  rcases b with ⟨bn, bu⟩
  unfold le SignedDecimalU64.cmp is_negative
  cases an <;> cases bn <;> by_cases hza : au = 0 <;> by_cases hzb : bu = 0 <;>
    simp [hza, hzb, Nat.compare_eq_gt] <;> omega

lemma cmp_eq_of_zero (a b : SignedDecimalU64) (ha : a.unscaled = 0)
    (hb : b.unscaled = 0) : cmp a b = Ordering.eq := by
  cases hA : a.is_negative <;> cases hB : b.is_negative <;>
    simp [SignedDecimalU64.cmp, hA, hB, ha, hb]

lemma i1_of_map_new {o : Option Nat} {c : Bool} {y : SignedDecimalU64}
    (h : o.map (new c) = some y) : y.I1 := by
  cases o with
  | none => exact absurd h (by simp)
  | some m =>
    rw [Option.map_some'] at h
    exact (Option.some.inj h) ▸ new_i1 c m

lemma i1_ZERO : ZERO.I1 := by
  intro h
  simp [ZERO] at h

lemma new_is_negative_self (x : SignedDecimalU64) (h : x.I1) :
    new x.is_negative x.unscaled = x := by
  cases x with
  | mk neg u =>
    cases neg
    · simp [new, is_negative]
    · have hu : u ≠ 0 := h rfl
      simp [new, is_negative, hu]

lemma to_scale_same (S T : Nat) (x : SignedDecimalU64) (mode : RoundingMode)
    (h : S = T) :
    checked_to_scale S T x mode = some (new x.is_negative x.unscaled) := by
  simp [checked_to_scale, h]

lemma to_scale_narrow (S T : Nat) (x : SignedDecimalU64) (mode : RoundingMode)
    (hTS : T < S) (hS : S ≤ 8) (hx : x.unscaled ≤ U64_MAX) :
    checked_to_scale S T x mode =
      some (new x.is_negative
        (if x.unscaled % 10 ^ (S - T) = 0 then x.unscaled / 10 ^ (S - T)
         else x.unscaled / 10 ^ (S - T) +
           (if incrementSpec mode (x.unscaled / 10 ^ (S - T))
               (x.unscaled % 10 ^ (S - T)) (10 ^ (S - T)) x.is_negative
            then 1 else 0))) := by
  have hne : ¬ (S = T) := by omega
  have hpow : pow10_u64 (S - T) = 10 ^ (S - T) := pow10_u64_eq (by omega)
  have hunitpos : 0 < 10 ^ (S - T) := Nat.pos_pow_of_pos _ (by norm_num)
  have hunit10 : 10 ≤ 10 ^ (S - T) := by
    calc (10 : Nat) = 10 ^ 1 := (pow_one 10).symm
    _ ≤ 10 ^ (S - T) := Nat.pow_le_pow_right (by norm_num) (by omega)
  by_cases hr0 : x.unscaled % 10 ^ (S - T) = 0
  · simp only [checked_to_scale, hpow]
    rw [if_neg hne, if_pos hTS, if_pos hr0, if_pos hr0]
  · have hrlt : x.unscaled % 10 ^ (S - T) < 10 ^ (S - T) :=
      Nat.mod_lt _ hunitpos
    have hunit8 : 10 ^ (S - T) ≤ 10 ^ 8 :=
      Nat.pow_le_pow_right (by norm_num) (by omega)
    have hp8 : (10 : Nat) ^ 8 = 100000000 := by norm_num
    have h2r : 2 * (x.unscaled % 10 ^ (S - T)) < 2 ^ 64 := by
      have h264 : (2 : Nat) ^ 64 = 18446744073709551616 := by norm_num
      omega
    have hq1 : x.unscaled / 10 ^ (S - T) + 1 ≤ U64_MAX :=
      div_succ_le_u64 hx hunit10
    have hincle :
        (if incrementSpec mode (x.unscaled / 10 ^ (S - T))
            (x.unscaled % 10 ^ (S - T)) (10 ^ (S - T)) x.is_negative
         then (1 : Nat) else 0) ≤ 1 := by
      split <;> norm_num
    have hadd : checkedAddU64 (x.unscaled / 10 ^ (S - T))
        (if incrementSpec mode (x.unscaled / 10 ^ (S - T))
            (x.unscaled % 10 ^ (S - T)) (10 ^ (S - T)) x.is_negative
         then (1 : Nat) else 0) =
        some (x.unscaled / 10 ^ (S - T) +
          (if incrementSpec mode (x.unscaled / 10 ^ (S - T))
              (x.unscaled % 10 ^ (S - T)) (10 ^ (S - T)) x.is_negative
           then (1 : Nat) else 0)) := by
      unfold checkedAddU64
      rw [if_pos]
      exact le_trans (Nat.add_le_add_left hincle _) hq1
    simp only [checked_to_scale, hpow]
    rw [if_neg hne, if_pos hTS, if_neg hr0,
      should_increment_eq mode hr0 h2r, hadd, if_neg hr0]
    rfl

lemma to_scale_widen (S T : Nat) (x : SignedDecimalU64) (mode : RoundingMode)
    (hST : S < T) (hT : T ≤ 8) :
    checked_to_scale S T x mode =
      (if x.unscaled * 10 ^ (T - S) ≤ U64_MAX then
        some (new x.is_negative (x.unscaled * 10 ^ (T - S)))
      else none) := by
  have hne : ¬ (S = T) := by omega
  have hnlt : ¬ (T < S) := by omega
  have hpow : pow10_u64 (T - S) = 10 ^ (T - S) := pow10_u64_eq (by omega)
  simp only [checked_to_scale, hpow]
  rw [if_neg hne, if_neg hnlt]
  unfold checkedMulU64
  split <;> rfl

lemma dropWhile_all_false {p : Char → Bool} (s : List Char)
    (h : ∀ c ∈ s, p c = false) : s.dropWhile p = s := by
  cases s with
  | nil => rfl
  | cons c cs =>
    rw [List.dropWhile_cons, h c (by simp)]
    simp

lemma trimChars_eq_self (s : List Char)
    (h : ∀ c ∈ s, c.isWhitespace = false) : trimChars s = s := by
  unfold trimChars
  rw [dropWhile_all_false s h,
    dropWhile_all_false s.reverse (fun c hc => h c (List.mem_reverse.mp hc))]
  exact List.reverse_reverse s

lemma charToDigit_digitToChar {d : Nat} (hd : d < 10) :
    charToDigit (digitToChar d) = some d := by
  interval_cases d <;> decide

lemma digitToChar_props {d : Nat} (hd : d < 10) :
    (digitToChar d).isWhitespace = false ∧ digitToChar d ≠ '+' ∧
      digitToChar d ≠ '-' := by
  interval_cases d <;> exact ⟨by decide, by decide, by decide⟩

lemma parseDigits_map (l : List Nat) (h : ∀ d ∈ l, d < 10) :
    parseDigits (l.map digitToChar) = some l := by
  induction l with
  | nil => rfl
  | cons d ds ih =>
    rw [List.map_cons]
    unfold parseDigits
    rw [charToDigit_digitToChar (h d (by simp)),
      ih (fun e he => h e (by simp [he]))]

lemma magParseModel_magDisplayModel (m : Nat) :
    magParseModel (magDisplayModel m) = some m := by
  by_cases hm : m = 0
  · subst hm
    decide
  · unfold magDisplayModel magParseModel
    rw [if_neg hm]
    have hd : ∀ d ∈ (Nat.digits 10 m).reverse, d < 10 := fun d hdm =>
      Nat.digits_lt_base (by norm_num) (List.mem_reverse.mp hdm)
    rw [parseDigits_map _ hd, Option.map_some', List.reverse_reverse,
      Nat.ofDigits_digits]

lemma magDisplayModel_ne (m : Nat) : magDisplayModel m ≠ [] := by
  unfold magDisplayModel
  by_cases hm : m = 0
  · simp [hm]
  · rw [if_neg hm]
    simp [hm, Nat.digits_ne_nil_iff_ne_zero]

lemma magDisplayModel_chars (m : Nat) (c : Char) (h : c ∈ magDisplayModel m) :
    c.isWhitespace = false ∧ c ≠ '+' ∧ c ≠ '-' := by
  unfold magDisplayModel at h
  by_cases hm : m = 0
  · rw [if_pos hm] at h
    simp only [List.mem_singleton] at h
    subst h
    exact ⟨by decide, by decide, by decide⟩
  · rw [if_neg hm] at h
    obtain ⟨d, hd, rfl⟩ := List.mem_map.mp h
    exact digitToChar_props
      (Nat.digits_lt_base (by norm_num) (List.mem_reverse.mp hd))

end Lemmas

section Claims

open SignedDecimalU64

/-- C1: `checked_round_dp(x, dp, mode)` keeps the scale `S` (the result is a
value of the same scale parameter), clamps `dp` to `S` (returning `x`
unchanged when `dp ≥ S`), and otherwise, with `unit = 10^(S-dp)`,
`q = u / unit`, `r = u % unit` on the unscaled magnitude `u`: when `r = 0`
the magnitude is unchanged, and when `r ≠ 0` the result is
`(q + increment) * unit` with the same (normalized) sign and with
`increment` given by the mode's table, returning `none` exactly when
`(q + increment) * unit` overflows u64; and the scale-2 rounding table for
`1.25` and `-1.25` at `dp = 1` holds. -/
theorem checked_round_dp_spec (S dp : Nat) (x : SignedDecimalU64)
    (mode : RoundingMode) (hS : S ≤ 8) (hx : x.unscaled ≤ U64_MAX) :
    (S ≤ dp → checked_round_dp S x dp mode = some x) ∧
    (dp < S →
      (x.unscaled % 10 ^ (S - dp) = 0 →
        checked_round_dp S x dp mode = some (new x.is_negative x.unscaled)) ∧
      (x.unscaled % 10 ^ (S - dp) ≠ 0 →
        checked_round_dp S x dp mode =
          (if (x.unscaled / 10 ^ (S - dp) +
                (if incrementSpec mode (x.unscaled / 10 ^ (S - dp))
                    (x.unscaled % 10 ^ (S - dp)) (10 ^ (S - dp)) x.is_negative
                 then 1 else 0)) * 10 ^ (S - dp) ≤ U64_MAX then
            some (new x.is_negative
              ((x.unscaled / 10 ^ (S - dp) +
                (if incrementSpec mode (x.unscaled / 10 ^ (S - dp))
                    (x.unscaled % 10 ^ (S - dp)) (10 ^ (S - dp)) x.is_negative
                 then 1 else 0)) * 10 ^ (S - dp)))
          else none))) ∧
    (checked_round_dp 2 ⟨false, 125⟩ 1 .TowardZero = some ⟨false, 120⟩ ∧
     checked_round_dp 2 ⟨false, 125⟩ 1 .AwayFromZero = some ⟨false, 130⟩ ∧
     checked_round_dp 2 ⟨false, 125⟩ 1 .Ceil = some ⟨false, 130⟩ ∧
     checked_round_dp 2 ⟨false, 125⟩ 1 .Floor = some ⟨false, 120⟩ ∧
     checked_round_dp 2 ⟨false, 125⟩ 1 .HalfUp = some ⟨false, 130⟩ ∧
     checked_round_dp 2 ⟨false, 125⟩ 1 .HalfDown = some ⟨false, 120⟩ ∧
     checked_round_dp 2 ⟨false, 125⟩ 1 .HalfEven = some ⟨false, 120⟩ ∧
     checked_round_dp 2 ⟨true, 125⟩ 1 .TowardZero = some ⟨true, 120⟩ ∧
     checked_round_dp 2 ⟨true, 125⟩ 1 .AwayFromZero = some ⟨true, 130⟩ ∧
     checked_round_dp 2 ⟨true, 125⟩ 1 .Ceil = some ⟨true, 120⟩ ∧
     checked_round_dp 2 ⟨true, 125⟩ 1 .Floor = some ⟨true, 130⟩ ∧
     checked_round_dp 2 ⟨true, 125⟩ 1 .HalfUp = some ⟨true, 130⟩ ∧
     checked_round_dp 2 ⟨true, 125⟩ 1 .HalfDown = some ⟨true, 120⟩ ∧
     checked_round_dp 2 ⟨true, 125⟩ 1 .HalfEven = some ⟨true, 120⟩) := by
  refine ⟨?_, ?_, ?_⟩
  · intro h
    have hmin : min dp S = S := Nat.min_eq_right h
    simp [checked_round_dp, hmin]
  · intro hdp
    have hmin : min dp S = dp := Nat.min_eq_left hdp.le
    have hdropne : ¬ (S - dp = 0) := by omega
    have hpow : pow10_u64 (S - dp) = 10 ^ (S - dp) := pow10_u64_eq (by omega)
    have hunitpos : 0 < 10 ^ (S - dp) := Nat.pos_pow_of_pos _ (by norm_num)
    have hunit10 : 10 ≤ 10 ^ (S - dp) := by
      calc (10 : Nat) = 10 ^ 1 := (pow_one 10).symm
      _ ≤ 10 ^ (S - dp) := Nat.pow_le_pow_right (by norm_num) (by omega)
    constructor
    · intro hr0
      simp only [checked_round_dp, hmin, hpow]
      rw [if_neg hdropne, if_pos hr0,
        Nat.div_mul_cancel (Nat.dvd_of_mod_eq_zero hr0)]
    · intro hrne
      have hrlt : x.unscaled % 10 ^ (S - dp) < 10 ^ (S - dp) :=
        Nat.mod_lt _ hunitpos
      have hunit8 : 10 ^ (S - dp) ≤ 10 ^ 8 :=
        Nat.pow_le_pow_right (by norm_num) (by omega)
      have hp8 : (10 : Nat) ^ 8 = 100000000 := by norm_num
      have h2r : 2 * (x.unscaled % 10 ^ (S - dp)) < 2 ^ 64 := by
        have h264 : (2 : Nat) ^ 64 = 18446744073709551616 := by norm_num
        omega
      simp only [checked_round_dp, hmin, hpow]
      rw [if_neg hdropne, if_neg hrne, should_increment_eq mode hrne h2r]
      have hq1 : x.unscaled / 10 ^ (S - dp) + 1 ≤ U64_MAX :=
        div_succ_le_u64 hx hunit10
      have hincle :
          (if incrementSpec mode (x.unscaled / 10 ^ (S - dp))
              (x.unscaled % 10 ^ (S - dp)) (10 ^ (S - dp)) x.is_negative
           then (1 : Nat) else 0) ≤ 1 := by
        split <;> norm_num
      have hadd : checkedAddU64 (x.unscaled / 10 ^ (S - dp))
          (if incrementSpec mode (x.unscaled / 10 ^ (S - dp))
              (x.unscaled % 10 ^ (S - dp)) (10 ^ (S - dp)) x.is_negative
           then (1 : Nat) else 0) =
          some (x.unscaled / 10 ^ (S - dp) +
            (if incrementSpec mode (x.unscaled / 10 ^ (S - dp))
                (x.unscaled % 10 ^ (S - dp)) (10 ^ (S - dp)) x.is_negative
             then (1 : Nat) else 0)) := by
        unfold checkedAddU64
        rw [if_pos]
        exact le_trans (Nat.add_le_add_left hincle _) hq1
      rw [hadd, Option.some_bind]
      unfold checkedMulU64
      split <;> split <;> rfl
  · exact ⟨by decide, by decide, by decide, by decide, by decide, by decide,
      by decide, by decide, by decide, by decide, by decide, by decide,
      by decide, by decide⟩

/-- Witness for C1 at a concrete input: `dp` at least the scale returns the
value unchanged. -/
theorem checked_round_dp_spec_witness :
    checked_round_dp 2 (⟨false, 125⟩ : SignedDecimalU64) 3 .HalfUp =
      some ⟨false, 125⟩ :=
  (checked_round_dp_spec 2 3 ⟨false, 125⟩ .HalfUp (by norm_num) (by decide)).1
    (by norm_num)

/-- C3: `checked_to_scale::<T>` reinterprets the unscaled integer unchanged
when `T = S`; narrows with the same digit-dropping/increment algorithm
(result unscaled `q + increment`, same sign) when `T < S`; and widens by a
checked multiply with `10^(T-S)` when `T > S`, returning `none` exactly when
that multiply overflows (the widened unscaled integer equals the original
times `10^(T-S)`, so the value is preserved exactly). -/
theorem checked_to_scale_spec (S T : Nat) (x : SignedDecimalU64)
    (mode : RoundingMode) (hS : S ≤ 8) (hT : T ≤ 8)
    (hx : x.unscaled ≤ U64_MAX) :
    (T = S → checked_to_scale S T x mode = some (new x.is_negative x.unscaled)) ∧
    (T < S →
      (x.unscaled % 10 ^ (S - T) = 0 →
        checked_to_scale S T x mode =
          some (new x.is_negative (x.unscaled / 10 ^ (S - T)))) ∧
      (x.unscaled % 10 ^ (S - T) ≠ 0 →
        checked_to_scale S T x mode =
          some (new x.is_negative
            (x.unscaled / 10 ^ (S - T) +
              (if incrementSpec mode (x.unscaled / 10 ^ (S - T))
                  (x.unscaled % 10 ^ (S - T)) (10 ^ (S - T)) x.is_negative
               then 1 else 0))))) ∧
    (S < T →
      checked_to_scale S T x mode =
        (if x.unscaled * 10 ^ (T - S) ≤ U64_MAX then
          some (new x.is_negative (x.unscaled * 10 ^ (T - S)))
        else none)) := by
  refine ⟨?_, ?_, ?_⟩
  · intro h
    exact to_scale_same S T x mode h.symm
  · intro hTS
    constructor
    · intro hr0
      rw [to_scale_narrow S T x mode hTS hS hx, if_pos hr0]
    · intro hrne
      rw [to_scale_narrow S T x mode hTS hS hx, if_neg hrne]
  · intro hST
    exact to_scale_widen S T x mode hST hT

/-- Witness for C3 at a concrete input: scale 3 `-1.234` to scale 1 with
HalfUp gives `-1.2`. -/
theorem checked_to_scale_spec_witness :
    checked_to_scale 3 1 (⟨true, 1234⟩ : SignedDecimalU64) .HalfUp =
      some ⟨true, 12⟩ := by
  have h := (checked_to_scale_spec 3 1 ⟨true, 1234⟩ .HalfUp (by norm_num)
    (by norm_num) (by decide)).2.1 (by norm_num)
  rw [h.2 (by decide)]
  decide

/-- C9: widening `x` from scale `S` to a wider scale `T` (when it succeeds)
then narrowing back to `S` with TowardZero recovers `x` exactly; whereas
narrowing below the original scale is lossy, e.g. scale 3 `-1.234` to scale
1 with HalfUp gives `-1.2`, and widening that back to scale 3 with
TowardZero gives `-1.200 ≠ -1.234`. -/
theorem rescale_roundtrip (S T : Nat) (x : SignedDecimalU64)
    (mode : RoundingMode) (hST : S < T) (hT : T ≤ 8) (hI1 : x.I1)
    (y : SignedDecimalU64) (hy : checked_to_scale S T x mode = some y) :
    checked_to_scale T S y .TowardZero = some x ∧
    (checked_to_scale 3 1 (⟨true, 1234⟩ : SignedDecimalU64) .HalfUp =
        some ⟨true, 12⟩ ∧
      checked_to_scale 1 3 (⟨true, 12⟩ : SignedDecimalU64) .TowardZero =
        some ⟨true, 1200⟩ ∧
      (⟨true, 1200⟩ : SignedDecimalU64) ≠ ⟨true, 1234⟩) := by
  refine ⟨?_, by decide, by decide, by decide⟩
  rw [to_scale_widen S T x mode hST hT] at hy
  by_cases hov : x.unscaled * 10 ^ (T - S) ≤ U64_MAX
  · rw [if_pos hov] at hy
    obtain rfl := Option.some.inj hy
    have hppos : 0 < 10 ^ (T - S) := Nat.pos_pow_of_pos _ (by norm_num)
    have hyx : (new x.is_negative (x.unscaled * 10 ^ (T - S))).unscaled ≤
        U64_MAX := by
      rw [new_unscaled]; exact hov
    rw [to_scale_narrow T S _ _ hST hT hyx, new_unscaled,
      if_pos (Nat.mul_mod_left _ _), Nat.mul_div_cancel _ hppos,
      is_negative_new]
    by_cases hu : x.unscaled = 0
    · have hxn : x.negative = false := by
        cases hneg : x.negative
        · rfl
        · exact absurd (hI1 hneg) (by simp [hu])
      cases x with
      | mk neg u =>
        simp only at hu hxn
        subst hu hxn
        simp [new, is_negative]
    · have hm : x.unscaled * 10 ^ (T - S) ≠ 0 :=
        Nat.mul_ne_zero hu (Nat.pos_iff_ne_zero.mp hppos)
      have hd : decide (x.unscaled * 10 ^ (T - S) ≠ 0) = true := by
        simp [hm]
      rw [hd, Bool.and_true]
      exact congrArg some (new_is_negative_self x hI1)
  · rw [if_neg hov] at hy
    exact absurd hy (by simp)

/-- Witness for C9 at a concrete input: `-1.2` at scale 1 widened to scale 3
then narrowed back with TowardZero is recovered exactly. -/
theorem rescale_roundtrip_witness :
    checked_to_scale 3 1 (SignedDecimalU64.new true 1200) .TowardZero =
      some ⟨true, 12⟩ :=
  (rescale_roundtrip 1 3 ⟨true, 12⟩ .TowardZero (by norm_num) (by norm_num)
    (by decide) (SignedDecimalU64.new true 1200) (by decide)).1

/-- C10 (implicit): narrowing never overflows — for every in-range value and
every strictly smaller target scale, `checked_to_scale` returns `Some`;
the overflow check on `q + increment` in the narrowing branch is
unreachable. -/
theorem narrowing_never_overflows (S T : Nat) (x : SignedDecimalU64)
    (mode : RoundingMode) (hTS : T < S) (hS : S ≤ 8)
    (hx : x.unscaled ≤ U64_MAX) :
    ∃ y, checked_to_scale S T x mode = some y :=
  ⟨_, to_scale_narrow S T x mode hTS hS hx⟩

/-- Witness for C10 at a concrete input: narrowing the scale-2 value `1.99`
to scale 0 with AwayFromZero succeeds. -/
theorem narrowing_never_overflows_witness :
    ∃ y, checked_to_scale 2 0 (⟨false, 199⟩ : SignedDecimalU64)
      .AwayFromZero = some y :=
  narrowing_never_overflows 2 0 ⟨false, 199⟩ .AwayFromZero (by norm_num)
    (by norm_num) (by decide)

/-- C2: same-(normalized-)sign operands add their magnitudes (checked, with
that common sign), failing exactly on magnitude-sum overflow; opposite-sign
operands subtract the smaller magnitude from the larger (never underflowing)
and carry the sign of the larger-magnitude operand, with equal magnitudes
yielding `ZERO`. -/
theorem checked_add_spec (a b : SignedDecimalU64) :
    (a.is_negative = b.is_negative →
      checked_add a b =
        (if a.unscaled + b.unscaled ≤ U64_MAX then
          some (new a.is_negative (a.unscaled + b.unscaled))
        else none)) ∧
    (a.is_negative ≠ b.is_negative →
      (b.unscaled ≤ a.unscaled →
        checked_add a b = some (new a.is_negative (a.unscaled - b.unscaled))) ∧
      (a.unscaled ≤ b.unscaled →
        checked_add a b = some (new b.is_negative (b.unscaled - a.unscaled))) ∧
      (a.unscaled = b.unscaled → checked_add a b = some ZERO)) := by
  constructor
  · intro hsame
    cases hA : a.is_negative <;> cases hB : b.is_negative
    · simp only [checked_add, hA, hB]
      unfold checkedAddU64
      split <;> rfl
    · rw [hA, hB] at hsame; exact absurd hsame (by simp)
    · rw [hA, hB] at hsame; exact absurd hsame (by simp)
    · simp only [checked_add, hA, hB]
      unfold checkedAddU64
      split <;> rfl
  · intro hne
    cases hA : a.is_negative <;> cases hB : b.is_negative
    · rw [hA, hB] at hne; exact absurd rfl hne
    · refine ⟨?_, ?_, ?_⟩
      · intro hba
        simp only [checked_add, hA, hB]
        rw [if_pos hba]
        unfold checkedSubU64
        rw [if_pos hba]
        rfl
      · intro hab
        by_cases hba : b.unscaled ≤ a.unscaled
        · have heq : a.unscaled = b.unscaled := le_antisymm hab hba
          simp only [checked_add, hA, hB]
          rw [if_pos hba]
          unfold checkedSubU64
          rw [if_pos hba, heq, Nat.sub_self]
          simp [new]
        · simp only [checked_add, hA, hB]
          rw [if_neg hba]
          unfold checkedSubU64
          rw [if_pos hab]
          rfl
      · intro heq
        simp only [checked_add, hA, hB]
        rw [if_pos (le_of_eq heq.symm)]
        unfold checkedSubU64
        rw [if_pos (le_of_eq heq.symm), heq, Nat.sub_self]
        simp [new, ZERO]
    · refine ⟨?_, ?_, ?_⟩
      · intro hba
        simp only [checked_add, hA, hB]
        rw [if_pos hba]
        unfold checkedSubU64
        rw [if_pos hba]
        rfl
      · intro hab
        by_cases hba : b.unscaled ≤ a.unscaled
        · have heq : a.unscaled = b.unscaled := le_antisymm hab hba
          simp only [checked_add, hA, hB]
          rw [if_pos hba]
          unfold checkedSubU64
          rw [if_pos hba, heq, Nat.sub_self]
          simp [new]
        · simp only [checked_add, hA, hB]
          rw [if_neg hba]
          unfold checkedSubU64
          rw [if_pos hab]
          rfl
      · intro heq
        simp only [checked_add, hA, hB]
        rw [if_pos (le_of_eq heq.symm)]
        unfold checkedSubU64
        rw [if_pos (le_of_eq heq.symm), heq, Nat.sub_self]
        simp [new, ZERO]
    · rw [hA, hB] at hne; exact absurd rfl hne

/-- Witness for C2 at a concrete input: opposite signs with equal magnitudes
yield `ZERO`. -/
theorem checked_add_spec_witness :
    checked_add ⟨false, 7⟩ ⟨true, 7⟩ = some ZERO :=
  ((checked_add_spec ⟨false, 7⟩ ⟨true, 7⟩).2 (by decide)).2.2 rfl

/-- C5: `checked_div(a, b)` is `none` whenever `b`'s magnitude is zero; if
`b` is nonzero and `a` is zero the result is `ZERO`; otherwise the sign is
the XOR of the two normalized signs and the magnitude is the magnitude
engine's checked fixed-point divide at the shared scale, failing exactly
when that divide fails. -/
theorem checked_div_spec (S : Nat) (a b : SignedDecimalU64) :
    (b.unscaled = 0 → checked_div S a b = none) ∧
    (b.unscaled ≠ 0 → a.unscaled = 0 → checked_div S a b = some ZERO) ∧
    (b.unscaled ≠ 0 → a.unscaled ≠ 0 →
      checked_div S a b =
        (magCheckedDiv S a.unscaled b.unscaled).map
          (new (a.is_negative != b.is_negative))) := by
  refine ⟨?_, ?_, ?_⟩
  · intro hb
    simp [checked_div, hb]
  · intro hb ha
    simp [checked_div, hb, ha]
  · intro hb ha
    simp [checked_div, hb, ha]

/-- Witness for C5 at a concrete input: zero divided by a nonzero value is
`ZERO`. -/
theorem checked_div_spec_witness :
    checked_div 2 ZERO ⟨false, 100⟩ = some ZERO :=
  (checked_div_spec 2 ZERO ⟨false, 100⟩).2.1 (by decide) rfl

/-- C4: invariant I1 (no negative zero) — `new(b, 0)` is never negative,
`new(b, m).is_negative = (b && m ≠ 0)`, and every value produced by `new`,
`negated`, `abs`, the checked arithmetic, rounding, rescaling, parsing, and
signed-integer conversion has its stored sign set only when the magnitude
is nonzero. -/
theorem i1_invariant :
    (∀ b : Bool, (new b 0).is_negative = false) ∧
    (∀ (b : Bool) (m : Nat), (new b m).is_negative = (b && decide (m ≠ 0))) ∧
    (∀ (b : Bool) (m : Nat), (new b m).I1) ∧
    (∀ x : SignedDecimalU64, x.I1 → x.negated.I1) ∧
    (∀ x : SignedDecimalU64, x.abs.I1) ∧
    (∀ a b y : SignedDecimalU64, checked_add a b = some y → y.I1) ∧
    (∀ a b y : SignedDecimalU64, checked_sub a b = some y → y.I1) ∧
    (∀ (S : Nat) (a b y : SignedDecimalU64),
      checked_mul S a b = some y → y.I1) ∧
    (∀ (S : Nat) (a b y : SignedDecimalU64),
      checked_div S a b = some y → y.I1) ∧
    (∀ (S dp : Nat) (x : SignedDecimalU64) (mode : RoundingMode)
      (y : SignedDecimalU64),
      x.I1 → checked_round_dp S x dp mode = some y → y.I1) ∧
    (∀ (S T : Nat) (x : SignedDecimalU64) (mode : RoundingMode)
      (y : SignedDecimalU64),
      checked_to_scale S T x mode = some y → y.I1) ∧
    (∀ (mp : List Char → Option Nat) (s : List Char) (y : SignedDecimalU64),
      fromStrWith mp s = .ok y → y.I1) ∧
    (∀ (v : Int) (y : SignedDecimalU64), tryFromI128 v = .ok y → y.I1) ∧
    (∀ (v : Int) (y : SignedDecimalU64), tryFromI64 v = .ok y → y.I1) := by
  have hadd : ∀ a b y : SignedDecimalU64, checked_add a b = some y → y.I1 := by
    intro a b y h
    simp only [checked_add] at h
    cases hA : a.is_negative <;> cases hB : b.is_negative <;>
      simp only [hA, hB] at h
    · exact i1_of_map_new h
    · split at h <;> exact i1_of_map_new h
    · split at h <;> exact i1_of_map_new h
    · exact i1_of_map_new h
  have h128 : ∀ (v : Int) (y : SignedDecimalU64),
      tryFromI128 v = .ok y → y.I1 := by
    intro v y h
    simp only [tryFromI128] at h
    split at h
    · exact absurd h (by simp)
    · split at h
      · exact absurd h (by simp)
      · exact (Except.ok.inj h) ▸ new_i1 _ _
  refine ⟨?_, ?_, new_i1, ?_, ?_, hadd, ?_, ?_, ?_, ?_, ?_, ?_, h128, ?_⟩
  · intro b
    simp [new, is_negative]
  · intro b m
    exact is_negative_new b m
  · intro x hx
    unfold negated
    by_cases hz : x.unscaled = 0
    · rw [if_pos hz]; exact hx
    · rw [if_neg hz]; exact fun _ => hz
  · intro x h
    exact Bool.noConfusion h
  · intro a b y h
    unfold checked_sub at h
    exact hadd _ _ _ h
  · intro S a b y h
    unfold checked_mul at h
    split at h
    · exact (Option.some.inj h) ▸ i1_ZERO
    · exact i1_of_map_new h
  · intro S a b y h
    unfold checked_div at h
    split at h
    · exact absurd h (by simp)
    · split at h
      · exact (Option.some.inj h) ▸ i1_ZERO
      · exact i1_of_map_new h
  · intro S dp x mode y hx h
    simp only [checked_round_dp] at h
    split at h
    · exact (Option.some.inj h) ▸ hx
    · split at h
      · exact (Option.some.inj h) ▸ new_i1 _ _
      · obtain ⟨q2, hq2, h2⟩ := Option.bind_eq_some.mp h
        exact i1_of_map_new h2
  · intro S T x mode y h
    simp only [checked_to_scale] at h
    split at h
    · exact (Option.some.inj h) ▸ new_i1 _ _
    · split at h
      · split at h
        · exact (Option.some.inj h) ▸ new_i1 _ _
        · exact i1_of_map_new h
      · exact i1_of_map_new h
  · intro mp s y h
    unfold fromStrWith at h
    rcases htr : trimChars s with _ | ⟨c, rest⟩
    · simp only [htr] at h
      exact absurd h (by simp)
    · simp only [htr] at h
      generalize (if c = '+' then (false, rest)
          else if c = '-' then (true, rest) else (false, c :: rest)) = p at h
      split at h
      · exact absurd h (by simp)
      · rcases hm : mp p.2 with _ | m <;> rw [hm] at h
        · exact absurd h (by simp)
        · exact (Except.ok.inj h) ▸ new_i1 _ _
  · intro v y h
    unfold tryFromI64 at h
    exact h128 v y h

/-- Witness for C4 at a concrete input: negating `-0.05` (scale 2) keeps the
invariant. -/
theorem i1_invariant_witness :
    (SignedDecimalU64.negated ⟨true, 5⟩ : SignedDecimalU64).I1 :=
  i1_invariant.2.2.2.1 ⟨true, 5⟩ (by decide)

/-- C6: comparison implements the total order — both-zero values are equal
(`ZERO == new(true, 0)`), a negative is strictly below any non-negative,
two negatives compare by reversed magnitude, two non-negatives by ordinary
magnitude comparison, and `≤` is transitive. -/
theorem total_order_spec :
    (∀ a b : SignedDecimalU64, a.unscaled = 0 → b.unscaled = 0 →
      cmp a b = Ordering.eq) ∧
    (beq ZERO (new true 0) = true) ∧
    (∀ a b : SignedDecimalU64, a.is_negative = true → b.is_negative = false →
      cmp a b = Ordering.lt) ∧
    (∀ a b : SignedDecimalU64, a.is_negative = true → b.is_negative = true →
      cmp a b = compare b.unscaled a.unscaled) ∧
    (∀ a b : SignedDecimalU64, a.is_negative = false → b.is_negative = false →
      cmp a b = compare a.unscaled b.unscaled) ∧
    (∀ a b c : SignedDecimalU64, le a b = true → le b c = true →
      le a c = true) := by
  refine ⟨cmp_eq_of_zero, by decide, ?_, ?_, ?_, ?_⟩
  · intro a b hA hB
    have za : a.unscaled ≠ 0 := by
      intro h0
      rw [is_negative, h0] at hA
      simp at hA
    by_cases zb : b.unscaled = 0 <;>
      simp [SignedDecimalU64.cmp, hA, hB, za, zb]
  · intro a b hA hB
    have za : a.unscaled ≠ 0 := by
      intro h0
      rw [is_negative, h0] at hA
      simp at hA
    have zb : b.unscaled ≠ 0 := by
      intro h0
      rw [is_negative, h0] at hB
      simp at hB
    simp [SignedDecimalU64.cmp, hA, hB, za, zb]
  · intro a b hA hB
    by_cases za : a.unscaled = 0 <;> by_cases zb : b.unscaled = 0 <;>
      simp [SignedDecimalU64.cmp, hA, hB, za, zb]
    all_goals decide
  · intro a b c h1 h2
    rw [le_iff_into] at h1 h2 ⊢
    exact le_trans h1 h2

/-- Witness for C6 at a concrete input: transitivity through
`-0.5 ≤ -0.3 ≤ 0.2`. -/
theorem total_order_spec_witness :
    le (⟨true, 5⟩ : SignedDecimalU64) ⟨false, 2⟩ = true :=
  total_order_spec.2.2.2.2.2 ⟨true, 5⟩ ⟨true, 3⟩ ⟨false, 2⟩
    (by decide) (by decide)

/-- C7: constructing from a signed wide integer (i128, and i64 via widening)
decomposes sign and absolute value, fails with Overflow exactly when the
absolute value exceeds `u64::MAX` (in particular at `i128::MIN`, whose
absolute value cannot be taken), and every accepted input yields a value
whose signed unscaled integer equals the input. -/
theorem try_from_signed_spec (v : Int) (hlo : -(2 ^ 127) ≤ v)
    (hhi : v < 2 ^ 127) :
    (tryFromI128 v = .error .Overflow ↔ U64_MAX < v.natAbs) ∧
    (∀ y, tryFromI128 v = .ok y → y.into_unscaled_i128 = v) ∧
    (tryFromI128 (-(2 ^ 127) : Int) = .error .Overflow) ∧
    (∀ w : Int, tryFromI64 w = tryFromI128 w) := by
  refine ⟨?_, ?_, ?_, fun w => rfl⟩
  · unfold tryFromI128
    by_cases hmin : v = -(2 ^ 127)
    · rw [if_pos hmin]
      refine iff_of_true rfl ?_
      unfold U64_MAX
      omega
    · rw [if_neg hmin]
      by_cases hbig : U64_MAX < v.natAbs
      · rw [if_pos hbig]
        exact iff_of_true rfl hbig
      · rw [if_neg hbig]
        constructor
        · intro h
          exact absurd h (by simp)
        · intro h
          exact absurd h hbig
  · intro y h
    unfold tryFromI128 at h
    by_cases hmin : v = -(2 ^ 127)
    · rw [if_pos hmin] at h
      exact absurd h (by simp)
    · rw [if_neg hmin] at h
      by_cases hbig : U64_MAX < v.natAbs
      · rw [if_pos hbig] at h
        exact absurd h (by simp)
      · rw [if_neg hbig] at h
        obtain rfl := Except.ok.inj h
        unfold into_unscaled_i128 new
        simp only [Bool.and_eq_true, decide_eq_true_eq]
        split
        · next hc => omega
        · next hc => omega
  · unfold tryFromI128
    rw [if_pos rfl]

/-- Witness for C7 at a concrete input: `i128::MIN` fails with Overflow. -/
theorem try_from_signed_spec_witness :
    tryFromI128 (-(2 ^ 127) : Int) = .error .Overflow :=
  (try_from_signed_spec (-(2 ^ 127)) (le_refl _) (by norm_num)).2.2.1

/-- C8: parsing the displayed text of a representable value recovers the
value — display prefixes the canonical magnitude text with `'-'` exactly
when `is_negative()`, parsing strips an optional leading sign and delegates
to the magnitude parser, and the round trip is exact assuming the magnitude
engine's canonical Display/parse round trip (no sign characters or
whitespace in its output). -/
theorem parse_display_roundtrip
    (magDisplay : Nat → List Char) (magParse : List Char → Option Nat)
    (hrt : ∀ m, magParse (magDisplay m) = some m)
    (hchars : ∀ m c, c ∈ magDisplay m →
      c.isWhitespace = false ∧ c ≠ '+' ∧ c ≠ '-')
    (hne : ∀ m, magDisplay m ≠ [])
    (x : SignedDecimalU64) (hI1 : x.I1) :
    fromStrWith magParse (displayWith magDisplay x) = .ok x := by
  cases hxn : x.is_negative
  · unfold displayWith
    rw [if_neg (by rw [hxn]; exact Bool.false_ne_true)]
    unfold fromStrWith
    have htrim : trimChars (magDisplay x.unscaled) = magDisplay x.unscaled :=
      trimChars_eq_self _ (fun c hc => (hchars _ c hc).1)
    rcases hD : magDisplay x.unscaled with _ | ⟨c, rest⟩
    · exact absurd hD (hne _)
    · rw [hD] at htrim
      simp only [hD, htrim]
      have hc := hchars x.unscaled c (by rw [hD]; simp)
      rw [if_neg hc.2.1, if_neg hc.2.2]
      rw [if_neg (by simp : ¬((false, c :: rest).2 = []))]
      have hp : magParse (false, c :: rest).2 = some x.unscaled := by
        show magParse (c :: rest) = some x.unscaled
        rw [← hD]
        exact hrt x.unscaled
      rw [hp]
      show Except.ok (new false x.unscaled) = Except.ok x
      rw [← hxn]
      exact congrArg Except.ok (new_is_negative_self x hI1)
  · unfold displayWith
    rw [if_pos (by rw [hxn])]
    unfold fromStrWith
    have hall : ∀ c ∈ '-' :: magDisplay x.unscaled,
        c.isWhitespace = false := by
      intro c hc
      rcases List.mem_cons.mp hc with rfl | hc
      · decide
      · exact (hchars _ c hc).1
    rw [trimChars_eq_self _ hall]
    simp only
    rw [if_neg (by decide : ¬(('-' : Char) = '+')), if_pos trivial]
    rw [if_neg (by simpa using hne x.unscaled : ¬((true, magDisplay x.unscaled).2 = []))]
    have hp : magParse (true, magDisplay x.unscaled).2 = some x.unscaled :=
      hrt x.unscaled
    rw [hp]
    show Except.ok (new true x.unscaled) = Except.ok x
    rw [← hxn]
    exact congrArg Except.ok (new_is_negative_self x hI1)

/-- Witness for C8 at a concrete input: the canonical digit model renders
and re-parses `-0.42` (sign bit true, unscaled 42) exactly. -/
theorem parse_display_roundtrip_witness :
    fromStrWith magParseModel (displayWith magDisplayModel ⟨true, 42⟩) =
      .ok ⟨true, 42⟩ :=
  parse_display_roundtrip magDisplayModel magParseModel
    magParseModel_magDisplayModel magDisplayModel_chars magDisplayModel_ne
    ⟨true, 42⟩ (by decide)

end Claims

end SignedDec
